import Mathlib

/-!
Verification of the LIME attribution pipeline (`xplique/attributions/lime.py`).

The module is shallowly embedded: tensors become nested lists of real
numbers, `tf.int32` tensors become nested lists of naturals, stochastic
draws (`tf.random.uniform`) are passed in as an explicit random source,
and fallible construction / validation returns `Except String`.
-/

/-- An input sample, shape (W, H, C): width rows, height columns, C channels. -/
abbrev Image := List (List (List ℝ))

/-- A segmentation grouping, shape (W, H), integer superpixel ids. -/
abbrev Mapping := List (List Nat)

/-- Row-major flattening of a (W, H, C) tensor, `tf.reshape(x, [-1])`. -/
def flattenT (t : Image) : List ℝ :=
  t.flatten.flatten

/-- Elementwise difference of two flat vectors (`a - b` on equal-shape tensors). -/
def subList (a b : List ℝ) : List ℝ :=
  List.zipWith (fun x y => x - y) a b

/-- Sum of squares of a flat vector. -/
def sqSum (v : List ℝ) : ℝ :=
  (v.map (fun x => x ^ 2)).sum

/-- Euclidean norm, `tf.norm(v, ord='euclidean')`. -/
noncomputable def euclideanNorm (v : List ℝ) : ℝ :=
  Real.sqrt (sqSum v)

/-- Dot product of two flat vectors. -/
def dotList (a b : List ℝ) : ℝ :=
  (List.zipWith (fun x y => x * y) a b).sum

/-- L2 normalisation, `tf.math.l2_normalize` (zero vector maps to zero since
division by zero is zero in `ℝ`, matching the epsilon-guarded TF behaviour in
the limit). -/
noncomputable def l2Normalize (v : List ℝ) : List ℝ :=
  v.map (fun x => x / euclideanNorm v)

/-- The Keras loss `tf.keras.losses.cosine_similarity`: the NEGATED cosine
similarity `-sum(l2_normalize(a) * l2_normalize(b))` (it is a loss, minimised
when the vectors are aligned). -/
noncomputable def kerasCosineSimilarity (a b : List ℝ) : ℝ :=
  -(dotList (l2Normalize a) (l2Normalize b))

namespace Lime

/-- The built-in euclidean kernel `_euclidean_similarity_kernel`:
`exp(-1 * distance^2 / kernel_width^2)` with `distance` the euclidean norm of
the difference of the flattened original input and flattened sample.  The
third argument (the interpretable sample) is ignored, as in the source
(`def _euclidean_similarity_kernel(original_input, sample, __)`). -/
noncomputable def euclideanSimilarityKernel (kernelWidth : ℝ)
    (originalInput sample : Image) (_interpretSample : List Nat) : ℝ :=
  let distance := euclideanNorm (subList (flattenT originalInput) (flattenT sample))
  Real.exp (-1 * distance ^ 2 / kernelWidth ^ 2)

/-- The built-in cosine kernel `_cosine_similarity_kernel`:
`distance = 1.0 - tf.keras.losses.cosine_similarity(flat input, flat sample)`
then `exp(-1 * distance^2 / kernel_width^2)`.  The third argument is ignored,
as in the source. -/
noncomputable def cosineSimilarityKernel (kernelWidth : ℝ)
    (originalInput sample : Image) (_interpretSample : List Nat) : ℝ :=
  let distance := 1.0 - kerasCosineSimilarity (flattenT originalInput) (flattenT sample)
  Real.exp (-1 * distance ^ 2 / kernelWidth ^ 2)

end Lime

section MaxHelpers

/-- The seed of a `foldl max` is a lower bound of the result. -/
theorem seed_le_foldl_max (l : List Nat) (a : Nat) : a ≤ l.foldl max a := by
  induction l generalizing a with
  | nil => exact Nat.le_refl a
  | cons b t ih => exact Nat.le_trans (Nat.le_max_left a b) (ih (max a b))

/-- Every element of a list is bounded by its `foldl max`. -/
theorem mem_le_foldl_max (l : List Nat) (a : Nat) : ∀ x ∈ l, x ≤ l.foldl max a := by
  induction l generalizing a with
  | nil => intro x hx; cases hx
  | cons b t ih =>
    intro x hx
    rcases List.mem_cons.mp hx with h | h
    · subst h
      exact Nat.le_trans (Nat.le_max_right a x) (seed_le_foldl_max t (max a x))
    · exact ih (max a b) x h

/-- A `foldl max` is either the seed or attained by an element. -/
theorem foldl_max_eq_seed_or_mem (l : List Nat) (a : Nat) :
    l.foldl max a = a ∨ l.foldl max a ∈ l := by
  induction l generalizing a with
  | nil => exact Or.inl rfl
  | cons b t ih =>
    rcases ih (max a b) with h | h
    · rcases max_choice a b with hab | hab
      · exact Or.inl (by simpa [hab] using h)
      · refine Or.inr ?_
        rw [List.foldl_cons, h, hab]
        exact List.mem_cons_self b t
    · exact Or.inr (List.mem_cons_of_mem b h)

end MaxHelpers

/-- Per-input interpretable feature count: the source computes
`tf.reduce_max(tf.reduce_max(mappings, axis=1), axis=1)`, i.e. the maximum of
every entry of each (W, H) grouping; folding the maximum row by row computes
the same per-input maximum over both spatial axes. -/
def reduceMax2 (m : Mapping) : Nat :=
  (m.map (fun row => row.foldl max 0)).foldl max 0

/-- Feature count of one grouping: maximum entry plus one (the `+= ones` step). -/
def numFeaturesOf (m : Mapping) : Nat :=
  reduceMax2 m + 1

/-- The batch feature-count vector `num_features` of `Lime._compute`. -/
def numFeaturesBatch (mappings : List Mapping) : List Nat :=
  (mappings.map reduceMax2).map (fun v => v + 1)

/-- The channel count `inputs.shape[-1]` of a well-formed (N, W, H, C) batch. -/
def channelsOf (inputs : List Image) : Nat :=
  (((inputs.getD 0 []).getD 0 []).getD 0 []).length

namespace Lime

/-- The default perturbation function from `_get_default_pertub_function`:
`uniform_sampling` is a (nb_samples, num_features) draw from `[0, 1)`, modelled
by the explicit source `u`; a cell is `cast(greater(prob, u[i,j]), int32)`,
i.e. `1` exactly when `u i j < prob`. -/
noncomputable def getDefaultPertubFunction (prob : ℝ) (u : Nat → Nat → ℝ) :
    Nat → Nat → List (List Nat) :=
  fun numFeatures nbSamples =>
    (List.range nbSamples).map (fun i =>
      (List.range numFeatures).map (fun j => if u i j < prob then 1 else 0))

/-- `Lime._get_masks`: `tf.gather(interpret_samples, indices=mapping, axis=1)`,
so `masks[r][x][y] = interpret_samples[r][mapping[x][y]]` (indices are in range
in every use; `getD` supplies a default out of range where `tf.gather` would
fail). -/
def getMasks (interpretSamples : List (List Nat)) (mapping : Mapping) :
    List (List (List Nat)) :=
  interpretSamples.map (fun s => mapping.map (fun row => row.map (fun g => s.getD g 0)))

/-- `Lime._apply_masks`: repeat the original input along the sample axis, the
mask along the channel axis, and form
`pert = original * mask + (1 - mask) * ref_value`. -/
def applyMasks (originalInput : Image) (sampleMasks : List (List (List Nat)))
    (refValue : List ℝ) : List Image :=
  sampleMasks.map (fun mask =>
    (List.zipWith (fun orow mrow =>
      (List.zipWith (fun (opix : List ℝ) (mv : Nat) =>
        (List.zipWith (fun ov rv => ov * (mv : ℝ) + (1 - (mv : ℝ)) * rv) opix refValue))
        orow mrow))
      originalInput mask))

/-- `Lime._generate_sample`: draw the interpretable samples, expand them to
spatial masks and synthesize the perturbed inputs. -/
noncomputable def generateSample (originalInput : Image)
    (pertubFunc : Nat → Nat → List (List Nat)) (mapping : Mapping)
    (numFeatures nbSamples : Nat) (refValue : List ℝ) :
    List (List Nat) × List Image :=
  let interpretSamples := pertubFunc numFeatures nbSamples
  let masks := getMasks interpretSamples mapping
  (interpretSamples, applyMasks originalInput masks refValue)

/-- Modelled from the spec: `Lime._batch_predictions` is called by
`Lime._compute` but defined outside the sources at hand; per the spec's Oracle
Query contract it returns, for each perturbed sample, the scalar
`dot(model_predict(sample), label_selector)` (sub-batching of the inference is
a throughput detail with no effect on the values). -/
def batchPredictions (pred : Image → List ℝ) (samples : List Image)
    (label : List ℝ) : List ℝ :=
  samples.map (fun s => dotList (pred s) label)

/-- `Lime._compute_similarities`: apply the similarity kernel to the current
input paired with each perturbed sample and its interpretable sample. -/
def computeSimilarities (currInput : Image) (samples : List Image)
    (interpretSamples : List (List Nat))
    (similarityKernel : Image → Image → List Nat → ℝ) : List ℝ :=
  List.zipWith (fun s isamp => similarityKernel currInput s isamp) samples interpretSamples

/-- `Lime._broadcast_explanation`: `tf.gather(explanation, indices=mapping)`,
so every location takes the coefficient of its group. -/
def broadcastExplanation (explanation : List ℝ) (mapping : Mapping) :
    List (List ℝ) :=
  mapping.map (fun row => row.map (fun g => explanation.getD g 0))

end Lime

/-- Order-preserving partition into consecutive batches, the effect of
`tf.data.Dataset.from_tensor_slices(...).batch(batch_size)`. -/
def chunkList (b : Nat) (l : List α) : List (List α) :=
  match l with
  | [] => []
  | x :: xs => (x :: xs.take (b - 1)) :: chunkList b (xs.drop (b - 1))
termination_by l.length
decreasing_by
  simp only [List.length_drop, List.length_cons]
  omega

/-- Concatenating the batches recovers the original order and contents. -/
theorem flatten_chunkList (b : Nat) (l : List α) : (chunkList b l).flatten = l := by
  generalize hn : l.length = n
  induction n using Nat.strong_induction_on generalizing l with
  | _ n ih =>
    cases l with
    | nil => simp [chunkList]
    | cons x xs =>
      rw [chunkList]
      simp only [List.flatten_cons]
      rw [ih ((xs.drop (b - 1)).length)
        (by simp only [List.length_drop]; simp only [List.length_cons] at hn; omega) _ rfl]
      simp [List.take_append_drop]

namespace Lime

/-- A constructed `Lime` explainer: the configuration fields fixed by
`Lime.__init__` after defaults are resolved, together with the external
collaborators (model, surrogate fitter, segmenter) as opaque functions. -/
structure Explainer where
  pred : Image → List ℝ
  batchSize : Nat
  interpretableModel : List (List Nat) → List ℝ → List ℝ → List ℝ
  similarityKernel : Image → Image → List Nat → ℝ
  pertubFunc : Nat → Nat → List (List Nat)
  mapToInterpretSpace : List Image → List Mapping
  refValues : Option (List ℝ)
  nbSamples : Nat

/-- `Lime._get_exp_kernel_func`: selects the built-in kernel by
`distance_mode`, raising `ValueError` (modelled by `Except.error`) on any
other mode. -/
noncomputable def getExpKernelFunc (distanceMode : String) (kernelWidth : ℝ) :
    Except String (Image → Image → List Nat → ℝ) :=
  if distanceMode = "euclidean" then
    Except.ok (euclideanSimilarityKernel kernelWidth)
  else if distanceMode = "cosine" then
    Except.ok (cosineSimilarityKernel kernelWidth)
  else
    Except.error ("distance_mode must be either cosine or euclidean.")

/-- `Lime.__init__`: resolve the optional similarity kernel (building the
built-in exponential kernel from `distance_mode` when none is given — the only
failing step), the optional perturbation function (default: the probability
`prob` sampler over the uniform source `u`) and the optional segmenter
(default: the external quickshift oracle `defaultSegmenter`). -/
noncomputable def init (pred : Image → List ℝ) (batchSize : Nat)
    (interpretableModel : List (List Nat) → List ℝ → List ℝ → List ℝ)
    (similarityKernel : Option (Image → Image → List Nat → ℝ))
    (pertubFunc : Option (Nat → Nat → List (List Nat)))
    (mapToInterpretSpace : Option (List Image → List Mapping))
    (refValues : Option (List ℝ)) (nbSamples : Nat)
    (distanceMode : String) (kernelWidth : ℝ) (prob : ℝ) (u : Nat → Nat → ℝ)
    (defaultSegmenter : List Image → List Mapping) : Except String Explainer :=
  let kernelChoice := match similarityKernel with
    | some k => Except.ok k
    | none => getExpKernelFunc distanceMode kernelWidth
  match kernelChoice with
  | Except.error e => Except.error e
  | Except.ok kernel =>
      Except.ok
        { pred := pred
          batchSize := batchSize
          interpretableModel := interpretableModel
          similarityKernel := kernel
          pertubFunc := pertubFunc.getD (getDefaultPertubFunction prob u)
          mapToInterpretSpace := mapToInterpretSpace.getD defaultSegmenter
          refValues := refValues
          nbSamples := nbSamples }

/-- The per-input body of the batch loop of `Lime._compute`: generate the
interpretable and perturbed samples, query the oracle, weight by similarity,
fit the surrogate and read off its coefficients (`coef_`). -/
noncomputable def computeOne (pred : Image → List ℝ)
    (interpretableModel : List (List Nat) → List ℝ → List ℝ → List ℝ)
    (similarityKernel : Image → Image → List Nat → ℝ)
    (pertubFunc : Nat → Nat → List (List Nat)) (nbSamples : Nat)
    (refValues : List ℝ) (inp : Image) (label : List ℝ) (mapping : Mapping)
    (numFeatures : Nat) : List ℝ :=
  let gen := generateSample inp pertubFunc mapping numFeatures nbSamples refValues
  let samplesLabels := batchPredictions pred gen.2 label
  let similarities := computeSimilarities inp gen.2 gen.1 similarityKernel
  interpretableModel gen.1 samplesLabels similarities

/-- The interpretable-space coefficient vectors collected by the batch loop of
`Lime._compute` (`explanations` before broadcasting): the inputs, augmented
labels, mappings and per-input feature counts are sliced together, batched
into consecutive chunks of `batch_size`, and each input is processed
independently; the per-input coefficient vectors are appended in order. -/
noncomputable def computeCoefs (pred : Image → List ℝ) (batchSize : Nat)
    (interpretableModel : List (List Nat) → List ℝ → List ℝ → List ℝ)
    (similarityKernel : Image → Image → List Nat → ℝ)
    (pertubFunc : Nat → Nat → List (List Nat)) (refValues : List ℝ)
    (mappings : List Mapping) (nbSamples : Nat) (inputs : List Image)
    (labels : List (List ℝ)) : List (List ℝ) :=
  let elems := (inputs.zip labels).zip (mappings.zip (numFeaturesBatch mappings))
  ((chunkList batchSize elems).map (fun batch =>
    batch.map (fun p =>
      computeOne pred interpretableModel similarityKernel pertubFunc nbSamples
        refValues p.1.1 p.1.2 p.2.1 p.2.2))).flatten

/-- `Lime._compute`: the coefficient vectors of the surrogate models, one per
input, broadcast back to the spatial resolution through each input's own
grouping. -/
noncomputable def compute (pred : Image → List ℝ) (batchSize : Nat)
    (interpretableModel : List (List Nat) → List ℝ → List ℝ → List ℝ)
    (similarityKernel : Image → Image → List Nat → ℝ)
    (pertubFunc : Nat → Nat → List (List Nat)) (refValues : List ℝ)
    (mappings : List Mapping) (nbSamples : Nat) (inputs : List Image)
    (labels : List (List ℝ)) : List (List (List ℝ)) :=
  let explanations := computeCoefs pred batchSize interpretableModel
    similarityKernel pertubFunc refValues mappings nbSamples inputs labels
  List.zipWith (fun e m => broadcastExplanation e m) explanations mappings

/-- `Lime.explain`: resolve the reference values (validating a user-supplied
vector against the channel count before anything else runs), compute the
segmentation mappings, and run `Lime._compute`. -/
noncomputable def explain (e : Explainer) (inputs : List Image)
    (labels : List (List ℝ)) : Except String (List (List (List ℝ))) :=
  match e.refValues with
  | none =>
      let rv := if channelsOf inputs = 3 then List.replicate 3 (0.5 : ℝ)
        else List.replicate (channelsOf inputs) (0 : ℝ)
      Except.ok (compute e.pred e.batchSize e.interpretableModel
        e.similarityKernel e.pertubFunc rv (e.mapToInterpretSpace inputs)
        e.nbSamples inputs labels)
  | some rv =>
      if rv.length = channelsOf inputs then
        Except.ok (compute e.pred e.batchSize e.interpretableModel
          e.similarityKernel e.pertubFunc rv (e.mapToInterpretSpace inputs)
          e.nbSamples inputs labels)
      else
        Except.error ("The dimension of ref_values must match inputs (C, )")

end Lime

/-- C7: for every grouping, the derived feature count is the maximum grouping
value plus one — every entry is bounded by `reduceMax2`, `reduceMax2` is
attained by an entry, an all-zero grouping yields one feature, and the batch
vector `num_features` is computed independently per input. -/
theorem numFeatures_eq_max_entry_plus_one (m : Mapping) (ms : List Mapping)
    (i : Nat) (hne : m.flatten ≠ []) (hi : i < ms.length) :
    (∀ x ∈ m.flatten, x ≤ reduceMax2 m) ∧
    reduceMax2 m ∈ m.flatten ∧
    numFeaturesOf m = reduceMax2 m + 1 ∧
    ((∀ x ∈ m.flatten, x = 0) → numFeaturesOf m = 1) ∧
    (numFeaturesBatch ms).getD i 0 = numFeaturesOf (ms.getD i []) := by
  have hub : ∀ x ∈ m.flatten, x ≤ reduceMax2 m := by
    intro x hx
    rcases List.mem_flatten.mp hx with ⟨row, hrow, hxrow⟩
    have h1 : x ≤ row.foldl max 0 := mem_le_foldl_max row 0 x hxrow
    have h2 : row.foldl max 0 ≤ reduceMax2 m :=
      mem_le_foldl_max (m.map (fun row => row.foldl max 0)) 0 _
        (List.mem_map_of_mem _ hrow)
    exact Nat.le_trans h1 h2
  have hzero : reduceMax2 m = 0 → reduceMax2 m ∈ m.flatten := by
    intro h0
    rcases List.exists_mem_of_ne_nil _ hne with ⟨x, hx⟩
    have : x = 0 := Nat.le_zero.mp (h0 ▸ hub x hx)
    rw [h0]
    exact this ▸ hx
  have hmem : reduceMax2 m ∈ m.flatten := by
    rcases foldl_max_eq_seed_or_mem (m.map (fun row => row.foldl max 0)) 0 with h0 | hm
    · exact hzero h0
    · rcases List.mem_map.mp hm with ⟨row, hrow, hfr⟩
      rcases foldl_max_eq_seed_or_mem row 0 with h0r | hmr
      · exact hzero (by simp only [reduceMax2] at hfr ⊢; rw [← hfr, h0r])
      · exact List.mem_flatten.mpr ⟨row, hrow, by simp only [reduceMax2]; rw [← hfr]; exact hmr⟩
  refine ⟨hub, hmem, rfl, ?_, ?_⟩
  · intro hall
    have : reduceMax2 m = 0 := hall _ hmem
    simp only [numFeaturesOf, this]
  · have h1 : i < ((ms.map reduceMax2).map (fun v => v + 1)).length := by
      simpa using hi
    simp only [numFeaturesBatch]
    rw [List.getD_eq_getElem _ _ h1, List.getD_eq_getElem _ _ hi]
    simp [numFeaturesOf]

/-- Witness for C7 at the concrete grouping `[[0,1],[2,0]]` and the concrete
batch `[[[0,0]], [[0,1,2,3,4]]]` at index 1. -/
theorem numFeatures_eq_max_entry_plus_one_witness :
    ([[0, 1], [2, 0]] : Mapping).flatten ≠ [] ∧
    (1 < ([[[0, 0]], [[0, 1, 2, 3, 4]]] : List Mapping).length) ∧
    ((∀ x ∈ ([[0, 1], [2, 0]] : Mapping).flatten, x ≤ reduceMax2 [[0, 1], [2, 0]]) ∧
     reduceMax2 [[0, 1], [2, 0]] ∈ ([[0, 1], [2, 0]] : Mapping).flatten ∧
     numFeaturesOf [[0, 1], [2, 0]] = reduceMax2 [[0, 1], [2, 0]] + 1 ∧
     ((∀ x ∈ ([[0, 1], [2, 0]] : Mapping).flatten, x = 0) →
       numFeaturesOf [[0, 1], [2, 0]] = 1) ∧
     (numFeaturesBatch [[[0, 0]], [[0, 1, 2, 3, 4]]]).getD 1 0 =
       numFeaturesOf (([[[0, 0]], [[0, 1, 2, 3, 4]]] : List Mapping).getD 1 [])) :=
  ⟨by decide, by decide,
    numFeatures_eq_max_entry_plus_one [[0, 1], [2, 0]] [[[0, 0]], [[0, 1, 2, 3, 4]]] 1
      (by decide) (by decide)⟩

/-- C10: both built-in similarity kernels ignore their third argument — the
weight depends only on the original and the perturbed input. -/
theorem kernels_ignore_interpret_sample (kw : ℝ) (inp sample : Image)
    (t1 t2 : List Nat) :
    Lime.euclideanSimilarityKernel kw inp sample t1 =
      Lime.euclideanSimilarityKernel kw inp sample t2 ∧
    Lime.cosineSimilarityKernel kw inp sample t1 =
      Lime.cosineSimilarityKernel kw inp sample t2 :=
  ⟨rfl, rfl⟩

/-- C2 counterexample: the cosine kernel does NOT return 1 on an identical
perturbed input.  `tf.keras.losses.cosine_similarity` is the negated cosine
similarity, so for an input equal to its perturbation the code computes
distance `1 - (-1) = 2` and returns `exp(-4 / kernel_width^2)`:
at `kernel_width = 1` this is `exp (-4) ≠ 1`. -/
theorem cosine_kernel_identical_input_ne_one :
    Lime.cosineSimilarityKernel 1 [[[1]]] [[[1]]] [] = Real.exp (-4) ∧
    Lime.cosineSimilarityKernel 1 [[[1]]] [[[1]]] [] ≠ 1 := by
  have h : Lime.cosineSimilarityKernel 1 [[[1]]] [[[1]]] [] = Real.exp (-4) := by
    simp only [Lime.cosineSimilarityKernel]
    have hf : flattenT [[[1]]] = [1] := by simp [flattenT]
    rw [hf]
    have hn : euclideanNorm [1] = 1 := by
      simp only [euclideanNorm, sqSum]
      norm_num
    have hcs : kerasCosineSimilarity [1] [1] = -1 := by
      simp only [kerasCosineSimilarity, l2Normalize, hn]
      simp [dotList]
    rw [hcs]
    norm_num
  refine ⟨h, ?_⟩
  rw [h]
  intro hc
  rw [Real.exp_eq_one_iff] at hc
  norm_num at hc

/-- C4: constructing a `Lime` explainer with no custom similarity kernel fails
with the `ValueError` message at construction itself when `distance_mode` is
neither euclidean nor cosine, and succeeds for both valid modes. -/
theorem init_validates_distance_mode (pred : Image → List ℝ) (batchSize : Nat)
    (im : List (List Nat) → List ℝ → List ℝ → List ℝ)
    (pf : Option (Nat → Nat → List (List Nat)))
    (mts : Option (List Image → List Mapping)) (rv : Option (List ℝ))
    (ns : Nat) (dm : String) (kw : ℝ) (prob : ℝ) (u : Nat → Nat → ℝ)
    (seg : List Image → List Mapping)
    (hdm1 : dm ≠ "euclidean") (hdm2 : dm ≠ "cosine") :
    Lime.init pred batchSize im none pf mts rv ns dm kw prob u seg =
      Except.error ("distance_mode must be either cosine or euclidean.") ∧
    (∃ e1, Lime.init pred batchSize im none pf mts rv ns "euclidean" kw prob u seg =
      Except.ok e1) ∧
    (∃ e2, Lime.init pred batchSize im none pf mts rv ns "cosine" kw prob u seg =
      Except.ok e2) := by
  refine ⟨?_, ?_, ?_⟩
  · simp [Lime.init, Lime.getExpKernelFunc, hdm1, hdm2]
  · exact ⟨_, rfl⟩
  · exact ⟨_, rfl⟩

/-- Witness for C4 at the concrete invalid mode string "manhattan". -/
theorem init_validates_distance_mode_witness :
    ("manhattan" : String) ≠ "euclidean" ∧ ("manhattan" : String) ≠ "cosine" ∧
    (Lime.init (fun _ => []) 1 (fun _ _ _ => []) none none none none 150
        "manhattan" 45 0.5 (fun _ _ => 0.5) (fun _ => []) =
      Except.error ("distance_mode must be either cosine or euclidean.") ∧
    (∃ e1, Lime.init (fun _ => []) 1 (fun _ _ _ => []) none none none none 150
        "euclidean" 45 0.5 (fun _ _ => 0.5) (fun _ => []) = Except.ok e1) ∧
    (∃ e2, Lime.init (fun _ => []) 1 (fun _ _ _ => []) none none none none 150
        "cosine" 45 0.5 (fun _ _ => 0.5) (fun _ => []) = Except.ok e2)) :=
  ⟨by decide, by decide,
    init_validates_distance_mode (fun _ => []) 1 (fun _ _ _ => []) none none none
      150 "manhattan" 45 0.5 (fun _ _ => 0.5) (fun _ => []) (by decide) (by decide)⟩

/-- C3: a user-supplied reference-value vector whose length differs from the
input channel count makes `explain` fail with the dimension-mismatch error.
The explainer `e` is arbitrary, so the error is independent of the
perturbation function, kernel, surrogate fitter and model: none of them can
influence (or be reached by) the failing call. -/
theorem explain_ref_values_dimension_mismatch (e : Lime.Explainer)
    (inputs : List Image) (labels : List (List ℝ)) (rv : List ℝ)
    (href : e.refValues = some rv) (hlen : rv.length ≠ channelsOf inputs) :
    Lime.explain e inputs labels =
      Except.error ("The dimension of ref_values must match inputs (C, )") := by
  simp [Lime.explain, href, hlen]

/-- Witness for C3: a one-channel input batch with a two-component
reference-value vector. -/
theorem explain_ref_values_dimension_mismatch_witness :
    (⟨fun _ => [], 1, fun _ _ _ => [], fun _ _ _ => 0, fun _ _ => [],
        fun _ => [], some [0, 0], 150⟩ : Lime.Explainer).refValues = some [0, 0] ∧
    ([(0 : ℝ), 0].length ≠ channelsOf [[[[1]]]]) ∧
    Lime.explain
      (⟨fun _ => [], 1, fun _ _ _ => [], fun _ _ _ => 0, fun _ _ => [],
        fun _ => [], some [0, 0], 150⟩ : Lime.Explainer) [[[[1]]]] [[1]] =
      Except.error ("The dimension of ref_values must match inputs (C, )") :=
  ⟨rfl, by simp [channelsOf],
    explain_ref_values_dimension_mismatch _ [[[[1]]]] [[1]] [0, 0] rfl
      (by simp [channelsOf])⟩

/-- C6: the default perturbation sampler always returns an integer matrix of
shape (nb_samples, num_features) with entries in pair set 0 or 1; with
probability 1 every cell is 1 and with probability 0 every cell is 0
(the uniform draw lies in the half-open unit interval). -/
theorem default_pertub_function_shape_and_extremes (prob : ℝ)
    (u : Nat → Nat → ℝ) (numF nbS : Nat) (hnf : 1 ≤ numF) (hns : 1 ≤ nbS)
    (hu : ∀ i j, 0 ≤ u i j ∧ u i j < 1) :
    (Lime.getDefaultPertubFunction prob u numF nbS).length = nbS ∧
    (∀ row ∈ Lime.getDefaultPertubFunction prob u numF nbS, row.length = numF) ∧
    (∀ row ∈ Lime.getDefaultPertubFunction prob u numF nbS,
      ∀ v ∈ row, v = 0 ∨ v = 1) ∧
    (∀ row ∈ Lime.getDefaultPertubFunction 1 u numF nbS, ∀ v ∈ row, v = 1) ∧
    (∀ row ∈ Lime.getDefaultPertubFunction 0 u numF nbS, ∀ v ∈ row, v = 0) := by
  refine ⟨by simp [Lime.getDefaultPertubFunction], ?_, ?_, ?_, ?_⟩
  · intro row hrow
    simp only [Lime.getDefaultPertubFunction, List.mem_map] at hrow
    rcases hrow with ⟨i, _, rfl⟩
    simp
  · intro row hrow v hv
    simp only [Lime.getDefaultPertubFunction, List.mem_map] at hrow
    rcases hrow with ⟨i, _, rfl⟩
    simp only [List.mem_map] at hv
    rcases hv with ⟨j, _, rfl⟩
    by_cases hij : u i j < prob
    · exact Or.inr (if_pos hij)
    · exact Or.inl (if_neg hij)
  · intro row hrow v hv
    simp only [Lime.getDefaultPertubFunction, List.mem_map] at hrow
    rcases hrow with ⟨i, _, rfl⟩
    simp only [List.mem_map] at hv
    rcases hv with ⟨j, _, rfl⟩
    exact if_pos (hu i j).2
  · intro row hrow v hv
    simp only [Lime.getDefaultPertubFunction, List.mem_map] at hrow
    rcases hrow with ⟨i, _, rfl⟩
    simp only [List.mem_map] at hv
    rcases hv with ⟨j, _, rfl⟩
    exact if_neg (not_lt.mpr (hu i j).1)

/-- Witness for C6 at two features, three samples and the constant uniform
draw one half. -/
theorem default_pertub_function_shape_and_extremes_witness :
    (1 ≤ 2) ∧ (1 ≤ 3) ∧ (∀ i j : Nat, 0 ≤ ((fun _ _ => 0.5) : Nat → Nat → ℝ) i j ∧
      ((fun _ _ => 0.5) : Nat → Nat → ℝ) i j < 1) ∧
    ((Lime.getDefaultPertubFunction 0.5 (fun _ _ => 0.5) 2 3).length = 3 ∧
    (∀ row ∈ Lime.getDefaultPertubFunction 0.5 (fun _ _ => 0.5) 2 3, row.length = 2) ∧
    (∀ row ∈ Lime.getDefaultPertubFunction 0.5 (fun _ _ => 0.5) 2 3,
      ∀ v ∈ row, v = 0 ∨ v = 1) ∧
    (∀ row ∈ Lime.getDefaultPertubFunction 1 (fun _ _ => 0.5) 2 3, ∀ v ∈ row, v = 1) ∧
    (∀ row ∈ Lime.getDefaultPertubFunction 0 (fun _ _ => 0.5) 2 3, ∀ v ∈ row, v = 0)) :=
  ⟨by decide, by decide, by intro i j; norm_num,
    default_pertub_function_shape_and_extremes 0.5 (fun _ _ => 0.5) 2 3
      (by decide) (by decide) (by intro i j; norm_num)⟩

/-- A (W, H, C) tensor shape for an image represented as nested lists. -/
def hasShape (t : Image) (W H C : Nat) : Prop :=
  t.length = W ∧ ∀ r ∈ t, r.length = H ∧ ∀ p ∈ r, p.length = C

/-- Flattening is injective on lists of rows of one common length. -/
theorem flatten_inj_of_rowlen {β : Type} (H : Nat) :
    ∀ (l1 l2 : List (List β)), (∀ r ∈ l1, r.length = H) →
      (∀ r ∈ l2, r.length = H) → l1.length = l2.length →
      l1.flatten = l2.flatten → l1 = l2 := by
  intro l1
  induction l1 with
  | nil =>
    intro l2 _ _ hlen _
    cases l2 with
    | nil => rfl
    | cons r t => simp at hlen
  | cons r1 t1 ih =>
    intro l2 h1 h2 hlen hfl
    cases l2 with
    | nil => simp at hlen
    | cons r2 t2 =>
      simp only [List.flatten_cons] at hfl
      have hr : r1.length = r2.length := by
        rw [h1 r1 (List.mem_cons_self r1 t1), h2 r2 (List.mem_cons_self r2 t2)]
      rcases List.append_inj hfl hr with ⟨hre, hte⟩
      have ht : t1 = t2 := by
        refine ih t2 (fun r hrm => h1 r (List.mem_cons_of_mem _ hrm))
          (fun r hrm => h2 r (List.mem_cons_of_mem _ hrm)) ?_ hte
        simpa using hlen
      rw [hre, ht]

/-- The flattening of a (W, H, C) image has length `W * H * C`. -/
theorem flattenT_length_of_hasShape (t : Image) (W H C : Nat)
    (h : hasShape t W H C) : (flattenT t).length = W * H * C := by
  rcases h with ⟨hW, hrows⟩
  have h1 : t.map List.length = List.replicate (t.map List.length).length H := by
    apply List.eq_replicate_of_mem
    intro b hb
    rcases List.mem_map.mp hb with ⟨r, hr, rfl⟩
    exact (hrows r hr).1
  rw [List.length_map, hW] at h1
  have hlen1 : t.flatten.length = W * H := by
    rw [List.length_flatten, h1, List.sum_replicate, smul_eq_mul]
  have h2 : t.flatten.map List.length =
      List.replicate (t.flatten.map List.length).length C := by
    apply List.eq_replicate_of_mem
    intro b hb
    rcases List.mem_map.mp hb with ⟨p, hp, rfl⟩
    rcases List.mem_flatten.mp hp with ⟨r, hr, hpr⟩
    exact (hrows r hr).2 p hpr
  rw [List.length_map, hlen1] at h2
  rw [flattenT, List.length_flatten, h2, List.sum_replicate, smul_eq_mul]

/-- The flattening of a list of rows of one common length `H` has length
`l.length * H`. -/
theorem flatten_length_of_rowlen {β : Type} (l : List (List β)) (H : Nat)
    (h : ∀ r ∈ l, r.length = H) : l.flatten.length = l.length * H := by
  have h1 : l.map List.length = List.replicate (l.map List.length).length H := by
    apply List.eq_replicate_of_mem
    intro b hb
    rcases List.mem_map.mp hb with ⟨r, hr, rfl⟩
    exact h r hr
  rw [List.length_map] at h1
  rw [List.length_flatten, h1, List.sum_replicate, smul_eq_mul]

/-- Full flattening is injective on images of one common shape. -/
theorem flattenT_inj_of_hasShape (t1 t2 : Image) (W H C : Nat)
    (h1 : hasShape t1 W H C) (h2 : hasShape t2 W H C)
    (hfl : flattenT t1 = flattenT t2) : t1 = t2 := by
  have hr1 : ∀ p ∈ t1.flatten, p.length = C := by
    intro p hp
    rcases List.mem_flatten.mp hp with ⟨r, hr, hpr⟩
    exact (h1.2 r hr).2 p hpr
  have hr2 : ∀ p ∈ t2.flatten, p.length = C := by
    intro p hp
    rcases List.mem_flatten.mp hp with ⟨r, hr, hpr⟩
    exact (h2.2 r hr).2 p hpr
  have hlen1 : t1.flatten.length = t2.flatten.length := by
    rw [flatten_length_of_rowlen t1 H (fun r hr => (h1.2 r hr).1),
      flatten_length_of_rowlen t2 H (fun r hr => (h2.2 r hr).1), h1.1, h2.1]
  have hinner : t1.flatten = t2.flatten :=
    flatten_inj_of_rowlen C t1.flatten t2.flatten hr1 hr2 hlen1 hfl
  exact flatten_inj_of_rowlen H t1 t2 (fun r hr => (h1.2 r hr).1)
    (fun r hr => (h2.2 r hr).1) (by rw [h1.1, h2.1]) hinner

/-- A sum of squares is nonnegative. -/
theorem sqSum_nonneg (v : List ℝ) : 0 ≤ sqSum v := by
  apply List.sum_nonneg
  intro x hx
  rcases List.mem_map.mp hx with ⟨y, _, rfl⟩
  exact sq_nonneg y

/-- The difference of a vector with itself has zero sum of squares. -/
theorem sqSum_subList_self (v : List ℝ) : sqSum (subList v v) = 0 := by
  induction v with
  | nil => simp [subList, sqSum]
  | cons x t ih =>
    simp only [subList, List.zipWith_cons_cons, sqSum, List.map_cons, List.sum_cons] at ih ⊢
    rw [ih]
    ring

/-- The difference of distinct equal-length vectors has a positive sum of
squares. -/
theorem sqSum_subList_pos (a : List ℝ) :
    ∀ (b : List ℝ), a.length = b.length → a ≠ b → 0 < sqSum (subList a b) := by
  induction a with
  | nil =>
    intro b hlen hne
    cases b with
    | nil => exact absurd rfl hne
    | cons y s => simp at hlen
  | cons x t ih =>
    intro b hlen hne
    cases b with
    | nil => simp at hlen
    | cons y s =>
      simp only [subList, List.zipWith_cons_cons, sqSum, List.map_cons, List.sum_cons]
      by_cases hxy : x = y
      · subst hxy
        have hts : t ≠ s := fun h => hne (by rw [h])
        have hpos : 0 < sqSum (subList t s) := ih s (by simpa using hlen) hts
        have : (x - x) ^ 2 = 0 := by ring
        rw [this, zero_add]
        exact hpos
      · have hz : x - y ≠ 0 := sub_ne_zero.mpr hxy
        have hpos : 0 < (x - y) ^ 2 :=
          lt_of_le_of_ne (sq_nonneg _) (Ne.symm (pow_ne_zero 2 hz))
        exact add_pos_of_pos_of_nonneg hpos (sqSum_nonneg _)

/-- C8: for any finite positive kernel width, the euclidean similarity kernel
is exactly 1 on an identical perturbed sample, and lies strictly in the open
unit interval on any same-shape perturbed sample that differs from the
original input. -/
theorem euclidean_kernel_one_iff_identical (kw : ℝ) (W H C : Nat)
    (inp sample : Image) (t : List Nat) (hkw : 0 < kw)
    (hsh1 : hasShape inp W H C) (hsh2 : hasShape sample W H C) :
    (sample = inp → Lime.euclideanSimilarityKernel kw inp sample t = 1) ∧
    (sample ≠ inp →
      0 < Lime.euclideanSimilarityKernel kw inp sample t ∧
      Lime.euclideanSimilarityKernel kw inp sample t < 1) := by
  constructor
  · intro heq
    subst heq
    simp only [Lime.euclideanSimilarityKernel, euclideanNorm]
    rw [sqSum_subList_self, Real.sqrt_zero]
    norm_num
  · intro hne
    have hflne : flattenT inp ≠ flattenT sample := by
      intro hfl
      exact hne (flattenT_inj_of_hasShape sample inp W H C hsh2 hsh1 hfl.symm)
    have hlen : (flattenT inp).length = (flattenT sample).length := by
      rw [flattenT_length_of_hasShape inp W H C hsh1,
        flattenT_length_of_hasShape sample W H C hsh2]
    have hpos : 0 < sqSum (subList (flattenT inp) (flattenT sample)) :=
      sqSum_subList_pos (flattenT inp) (flattenT sample) hlen hflne
    simp only [Lime.euclideanSimilarityKernel, euclideanNorm]
    rw [Real.sq_sqrt (le_of_lt hpos)]
    constructor
    · exact Real.exp_pos _
    · rw [Real.exp_lt_one_iff]
      apply div_neg_of_neg_of_pos
      · nlinarith
      · positivity

/-- Witness for C8 at the one-pixel images 1 and 0 with kernel width 1. -/
theorem euclidean_kernel_one_iff_identical_witness :
    (0 : ℝ) < 1 ∧ hasShape [[[1]]] 1 1 1 ∧ hasShape [[[0]]] 1 1 1 ∧
    ((([[[0]]] : Image) = [[[1]]] →
      Lime.euclideanSimilarityKernel 1 [[[1]]] [[[0]]] [] = 1) ∧
    (([[[0]]] : Image) ≠ [[[1]]] →
      0 < Lime.euclideanSimilarityKernel 1 [[[1]]] [[[0]]] [] ∧
      Lime.euclideanSimilarityKernel 1 [[[1]]] [[[0]]] [] < 1)) :=
  ⟨by norm_num, by constructor <;> simp [hasShape], by constructor <;> simp [hasShape],
    euclidean_kernel_one_iff_identical 1 1 1 1 [[[1]]] [[[0]]] [] (by norm_num)
      (by constructor <;> simp [hasShape]) (by constructor <;> simp [hasShape])⟩

/-- C9: broadcasting a coefficient vector through a grouping yields an array
of the grouping's spatial shape whose value at every location is exactly the
coefficient indexed by the grouping at that location. -/
theorem broadcast_explanation_is_exact_gather (expl : List ℝ) (mapping : Mapping)
    (x y : Nat) (hx : x < mapping.length) (hy : y < (mapping.getD x []).length)
    (hrange : ∀ row ∈ mapping, ∀ g ∈ row, g < expl.length) :
    (Lime.broadcastExplanation expl mapping).length = mapping.length ∧
    ((Lime.broadcastExplanation expl mapping).getD x []).length =
      (mapping.getD x []).length ∧
    ((Lime.broadcastExplanation expl mapping).getD x []).getD y 0 =
      expl.getD ((mapping.getD x []).getD y 0) 0 := by
  have hxb : x < (Lime.broadcastExplanation expl mapping).length := by
    simpa [Lime.broadcastExplanation] using hx
  have hrow : (Lime.broadcastExplanation expl mapping).getD x [] =
      (mapping.getD x []).map (fun g => expl.getD g 0) := by
    rw [List.getD_eq_getElem _ _ hxb, List.getD_eq_getElem _ _ hx]
    simp [Lime.broadcastExplanation]
  refine ⟨by simp [Lime.broadcastExplanation], by rw [hrow]; simp, ?_⟩
  rw [hrow]
  have hym : y < ((mapping.getD x []).map (fun g => expl.getD g 0)).length := by
    simpa using hy
  rw [List.getD_eq_getElem _ _ hym, List.getD_eq_getElem _ _ hy]
  simp

/-- Witness for C9 at the coefficients `[2, 3]` and the grouping
`[[0, 1], [1, 0]]` at location (1, 0). -/
theorem broadcast_explanation_is_exact_gather_witness :
    (1 < ([[0, 1], [1, 0]] : Mapping).length) ∧
    (0 < (([[0, 1], [1, 0]] : Mapping).getD 1 []).length) ∧
    (∀ row ∈ ([[0, 1], [1, 0]] : Mapping), ∀ g ∈ row, g < [(2 : ℝ), 3].length) ∧
    ((Lime.broadcastExplanation [2, 3] [[0, 1], [1, 0]]).length =
      ([[0, 1], [1, 0]] : Mapping).length ∧
    ((Lime.broadcastExplanation [2, 3] [[0, 1], [1, 0]]).getD 1 []).length =
      (([[0, 1], [1, 0]] : Mapping).getD 1 []).length ∧
    ((Lime.broadcastExplanation [2, 3] [[0, 1], [1, 0]]).getD 1 []).getD 0 0 =
      [(2 : ℝ), 3].getD ((([[0, 1], [1, 0]] : Mapping).getD 1 []).getD 0 0) 0) :=
  ⟨by decide, by decide, by decide,
    broadcast_explanation_is_exact_gather [2, 3] [[0, 1], [1, 0]] 1 0
      (by decide) (by decide) (by decide)⟩

/-- Reading an in-range position of a mapped list. -/
theorem getD_map_in_range {α β : Type} (f : α → β) (l : List α) (i : Nat)
    (h : i < l.length) (da : α) (db : β) :
    (l.map f).getD i db = f (l.getD i da) := by
  have hm : i < (l.map f).length := by simpa using h
  rw [List.getD_eq_getElem _ _ hm, List.getD_eq_getElem _ _ h, List.getElem_map]

/-- Reading an in-range position of a zipWith of two lists. -/
theorem getD_zipWith_in_range {α β γ : Type} (f : α → β → γ) (a : List α)
    (b : List β) (i : Nat) (ha : i < a.length) (hb : i < b.length)
    (da : α) (db : β) (dc : γ) :
    (List.zipWith f a b).getD i dc = f (a.getD i da) (b.getD i db) := by
  have hz : i < (List.zipWith f a b).length := by
    rw [List.length_zipWith]
    exact lt_min ha hb
  rw [List.getD_eq_getElem _ _ hz, List.getD_eq_getElem _ _ ha,
    List.getD_eq_getElem _ _ hb, List.getElem_zipWith]

/-- An in-range `getD` read is a member of the list. -/
theorem getD_mem_of_lt {α : Type} (l : List α) (i : Nat) (h : i < l.length)
    (d : α) : l.getD i d ∈ l := by
  rw [List.getD_eq_getElem _ _ h]
  exact List.getElem_mem h

/-- The mask batch of `Lime._get_masks` at sample `r` and location (x, y) is
the interpretable sample's value at the grouping index of that location. -/
theorem getMasks_getD (interp : List (List Nat)) (mapping : Mapping)
    (r x y : Nat) (hr : r < interp.length) (hx : x < mapping.length)
    (hy : y < (mapping.getD x []).length) :
    (((Lime.getMasks interp mapping).getD r []).getD x []).getD y 0 =
      (interp.getD r []).getD ((mapping.getD x []).getD y 0) 0 := by
  rw [Lime.getMasks, getD_map_in_range _ _ _ hr []]
  rw [getD_map_in_range _ _ _ hx []]
  rw [getD_map_in_range _ _ _ hy 0]

/-- Shape of the mask batch rows. -/
theorem getMasks_row_shape (interp : List (List Nat)) (mapping : Mapping)
    (r x : Nat) (hr : r < interp.length) (hx : x < mapping.length) :
    ((Lime.getMasks interp mapping).getD r []).length = mapping.length ∧
    (((Lime.getMasks interp mapping).getD r []).getD x []).length =
      (mapping.getD x []).length := by
  constructor
  · rw [Lime.getMasks, getD_map_in_range _ _ _ hr []]
    simp
  · rw [Lime.getMasks, getD_map_in_range _ _ _ hr [], getD_map_in_range _ _ _ hx []]
    simp

/-- Pointwise value of `Lime._apply_masks` for arbitrary spatial masks. -/
theorem applyMasks_getD (inp : Image) (masks : List (List (List Nat)))
    (refv : List ℝ) (r x y c : Nat) (hr : r < masks.length)
    (hxi : x < inp.length) (hxm : x < (masks.getD r []).length)
    (hyi : y < (inp.getD x []).length)
    (hym : y < ((masks.getD r []).getD x []).length)
    (hci : c < ((inp.getD x []).getD y []).length) (hcr : c < refv.length) :
    ((((Lime.applyMasks inp masks refv).getD r []).getD x []).getD y []).getD c 0 =
      ((inp.getD x []).getD y []).getD c 0 *
        ((((masks.getD r []).getD x []).getD y 0 : Nat) : ℝ) +
      (1 - ((((masks.getD r []).getD x []).getD y 0 : Nat) : ℝ)) * refv.getD c 0 := by
  rw [Lime.applyMasks, getD_map_in_range _ _ _ hr []]
  rw [getD_zipWith_in_range _ _ _ _ hxi hxm [] []]
  rw [getD_zipWith_in_range _ _ _ _ hyi hym [] 0]
  rw [getD_zipWith_in_range _ _ _ _ hci hcr 0 0]

/-- C5: mask expansion (`_get_masks`) followed by input synthesis
(`_apply_masks`) keeps the original value at every location whose group is
selected by the binary interpretable sample and substitutes the per-channel
reference value elsewhere; in particular an all-ones interpretable row
reproduces the original input and an all-zeros row yields the reference value
everywhere. -/
theorem apply_masks_selects_original_or_reference (inp : Image)
    (interp : List (List Nat)) (mapping : Mapping) (refv : List ℝ)
    (r x y c : Nat)
    (hbin : ∀ row ∈ interp, ∀ v ∈ row, v = 0 ∨ v = 1)
    (hr : r < interp.length) (hxi : x < inp.length) (hx : x < mapping.length)
    (hy : y < (mapping.getD x []).length) (hyi : y < (inp.getD x []).length)
    (hci : c < ((inp.getD x []).getD y []).length) (hcr : c < refv.length)
    (hg : (mapping.getD x []).getD y 0 < (interp.getD r []).length) :
    (((((Lime.applyMasks inp (Lime.getMasks interp mapping) refv).getD r
        []).getD x []).getD y []).getD c 0 =
      if (interp.getD r []).getD ((mapping.getD x []).getD y 0) 0 = 1
      then ((inp.getD x []).getD y []).getD c 0
      else refv.getD c 0) ∧
    ((∀ v ∈ interp.getD r [], v = 1) →
      ((((Lime.applyMasks inp (Lime.getMasks interp mapping) refv).getD r
        []).getD x []).getD y []).getD c 0 =
        ((inp.getD x []).getD y []).getD c 0) ∧
    ((∀ v ∈ interp.getD r [], v = 0) →
      ((((Lime.applyMasks inp (Lime.getMasks interp mapping) refv).getD r
        []).getD x []).getD y []).getD c 0 = refv.getD c 0) := by
  have hrm : r < (Lime.getMasks interp mapping).length := by
    simpa [Lime.getMasks] using hr
  have hshape := getMasks_row_shape interp mapping r x hr hx
  have hxm : x < ((Lime.getMasks interp mapping).getD r []).length := by
    rw [hshape.1]; exact hx
  have hym : y < (((Lime.getMasks interp mapping).getD r []).getD x []).length := by
    rw [hshape.2]; exact hy
  have hval := applyMasks_getD inp (Lime.getMasks interp mapping) refv r x y c
    hrm hxi hxm hyi hym hci hcr
  rw [getMasks_getD interp mapping r x y hr hx hy] at hval
  have hmem_row : interp.getD r [] ∈ interp := getD_mem_of_lt interp r hr []
  have hmv_mem : (interp.getD r []).getD ((mapping.getD x []).getD y 0) 0 ∈
      interp.getD r [] := getD_mem_of_lt _ _ hg 0
  have hmain : ((((Lime.applyMasks inp (Lime.getMasks interp mapping)
      refv).getD r []).getD x []).getD y []).getD c 0 =
      if (interp.getD r []).getD ((mapping.getD x []).getD y 0) 0 = 1
      then ((inp.getD x []).getD y []).getD c 0
      else refv.getD c 0 := by
    rcases hbin _ hmem_row _ hmv_mem with h0 | h1
    · rw [hval, h0, if_neg (by omega)]
      push_cast
      ring
    · rw [hval, h1, if_pos rfl]
      push_cast
      ring
  refine ⟨hmain, ?_, ?_⟩
  · intro hall
    rw [hmain, if_pos (hall _ hmv_mem)]
  · intro hall
    rw [hmain, if_neg (by rw [hall _ hmv_mem]; omega)]

/-- Witness for C5: a 1x2x1 input, two interpretable rows over two features
and the grouping `[[0, 1]]`, read at sample row 0, location (0, 1), channel 0,
with reference value 7. -/
theorem apply_masks_selects_original_or_reference_witness :
    (∀ row ∈ ([[1, 0], [0, 1]] : List (List Nat)), ∀ v ∈ row, v = 0 ∨ v = 1) ∧
    (0 < ([[1, 0], [0, 1]] : List (List Nat)).length) ∧
    (0 < ([[[2], [3]]] : Image).length) ∧ (0 < ([[0, 1]] : Mapping).length) ∧
    (1 < (([[0, 1]] : Mapping).getD 0 []).length) ∧
    (1 < (([[[2], [3]]] : Image).getD 0 []).length) ∧
    (0 < ((([[[2], [3]]] : Image).getD 0 []).getD 1 []).length) ∧
    (0 < [(7 : ℝ)].length) ∧
    ((([[0, 1]] : Mapping).getD 0 []).getD 1 0 <
      (([[1, 0], [0, 1]] : List (List Nat)).getD 0 []).length) ∧
    (((((Lime.applyMasks [[[2], [3]]]
          (Lime.getMasks [[1, 0], [0, 1]] [[0, 1]]) [7]).getD 0
        []).getD 0 []).getD 1 []).getD 0 0 =
      if (([[1, 0], [0, 1]] : List (List Nat)).getD 0 []).getD
          ((([[0, 1]] : Mapping).getD 0 []).getD 1 0) 0 = 1
      then ((([[[2], [3]]] : Image).getD 0 []).getD 1 []).getD 0 0
      else [(7 : ℝ)].getD 0 0) ∧
    ((∀ v ∈ ([[1, 0], [0, 1]] : List (List Nat)).getD 0 [], v = 1) →
      ((((Lime.applyMasks [[[2], [3]]]
          (Lime.getMasks [[1, 0], [0, 1]] [[0, 1]]) [7]).getD 0
        []).getD 0 []).getD 1 []).getD 0 0 =
        ((([[[2], [3]]] : Image).getD 0 []).getD 1 []).getD 0 0) ∧
    ((∀ v ∈ ([[1, 0], [0, 1]] : List (List Nat)).getD 0 [], v = 0) →
      ((((Lime.applyMasks [[[2], [3]]]
          (Lime.getMasks [[1, 0], [0, 1]] [[0, 1]]) [7]).getD 0
        []).getD 0 []).getD 1 []).getD 0 0 = [(7 : ℝ)].getD 0 0) := by
  refine ⟨by decide, by decide, by simp, by decide, by decide, by simp, by simp,
    by simp, by decide, ?_⟩
  have h := apply_masks_selects_original_or_reference [[[2], [3]]]
    [[1, 0], [0, 1]] [[0, 1]] [7] 0 0 1 0 (by decide) (by decide) (by simp)
    (by decide) (by decide) (by simp) (by simp) (by simp) (by decide)
  exact ⟨h.1, h.2.1, h.2.2⟩

/-- Mapping inside every chunk and flattening is mapping the whole list. -/
theorem flatten_map_map {α β : Type} (f : α → β) (L : List (List α)) :
    (L.map (List.map f)).flatten = L.flatten.map f := by
  induction L with
  | nil => rfl
  | cons b t ih =>
    simp only [List.map_cons, List.flatten_cons, List.map_append, ih]

/-- The batched surrogate loop of `Lime._compute` processes each input
independently in order: the collected coefficient vectors are the per-input
results in input order, whatever the batch size. -/
theorem computeCoefs_eq_map (pred : Image → List ℝ) (batchSize : Nat)
    (im : List (List Nat) → List ℝ → List ℝ → List ℝ)
    (kernel : Image → Image → List Nat → ℝ)
    (pertub : Nat → Nat → List (List Nat)) (rv : List ℝ)
    (mappings : List Mapping) (nbSamples : Nat) (inputs : List Image)
    (labels : List (List ℝ)) :
    Lime.computeCoefs pred batchSize im kernel pertub rv mappings nbSamples
        inputs labels =
      ((inputs.zip labels).zip (mappings.zip (numFeaturesBatch mappings))).map
        (fun p => Lime.computeOne pred im kernel pertub nbSamples rv
          p.1.1 p.1.2 p.2.1 p.2.2) := by
  simp only [Lime.computeCoefs]
  rw [flatten_map_map, flatten_chunkList]

/-- The surrogate coefficient vector for one input has exactly that input's
number of interpretable features, given the sampler and fitter contracts. -/
theorem computeOne_length (pred : Image → List ℝ)
    (im : List (List Nat) → List ℝ → List ℝ → List ℝ)
    (kernel : Image → Image → List Nat → ℝ)
    (pertub : Nat → Nat → List (List Nat)) (nbSamples : Nat) (rv : List ℝ)
    (inp : Image) (label : List ℝ) (mapping : Mapping) (nf : Nat)
    (hns : 1 ≤ nbSamples)
    (hpert : ∀ a b : Nat, (pertub a b).length = b ∧
      ∀ row ∈ pertub a b, row.length = a)
    (hfit : ∀ (X : List (List Nat)) (y w : List ℝ) (n : Nat), X ≠ [] →
      (∀ row ∈ X, row.length = n) → (im X y w).length = n) :
    (Lime.computeOne pred im kernel pertub nbSamples rv inp label mapping
      nf).length = nf := by
  simp only [Lime.computeOne, Lime.generateSample]
  apply hfit
  · apply List.ne_nil_of_length_pos
    rw [(hpert nf nbSamples).1]
    omega
  · exact (hpert nf nbSamples).2

/-- Broadcast explanations have the spatial shape of their grouping. -/
theorem broadcastExplanation_shape (expl : List ℝ) (m : Mapping) (W H : Nat)
    (hW : m.length = W) (hH : ∀ row ∈ m, row.length = H) :
    (Lime.broadcastExplanation expl m).length = W ∧
    ∀ row ∈ Lime.broadcastExplanation expl m, row.length = H := by
  constructor
  · simpa [Lime.broadcastExplanation] using hW
  · intro row hrow
    simp only [Lime.broadcastExplanation, List.mem_map] at hrow
    rcases hrow with ⟨mrow, hmrow, rfl⟩
    simpa using hH mrow hmrow

/-- C1: a single `explain` call on two inputs whose groupings have 5 and 12
interpretable features succeeds and yields, independently per input, a
surrogate coefficient vector of that input's own feature count before
broadcasting (whatever reference values are in force) and a full spatial
(width by height) explanation after broadcasting. -/
theorem explain_two_inputs_independent_shapes
    (e : Lime.Explainer) (i1 i2 : Image) (l1 l2 : List ℝ) (m1 m2 : Mapping)
    (W1 H1 W2 H2 : Nat)
    (hseg : e.mapToInterpretSpace [i1, i2] = [m1, m2])
    (href : e.refValues = none)
    (hnf1 : numFeaturesOf m1 = 5) (hnf2 : numFeaturesOf m2 = 12)
    (hns : 1 ≤ e.nbSamples)
    (hpert : ∀ a b : Nat, (e.pertubFunc a b).length = b ∧
      ∀ row ∈ e.pertubFunc a b, row.length = a)
    (hfit : ∀ (X : List (List Nat)) (y w : List ℝ) (n : Nat), X ≠ [] →
      (∀ row ∈ X, row.length = n) → (e.interpretableModel X y w).length = n)
    (hm1W : m1.length = W1) (hm1H : ∀ row ∈ m1, row.length = H1)
    (hm2W : m2.length = W2) (hm2H : ∀ row ∈ m2, row.length = H2) :
    (∀ rv : List ℝ,
      (Lime.computeCoefs e.pred e.batchSize e.interpretableModel
        e.similarityKernel e.pertubFunc rv [m1, m2] e.nbSamples [i1, i2]
        [l1, l2]).length = 2 ∧
      ((Lime.computeCoefs e.pred e.batchSize e.interpretableModel
        e.similarityKernel e.pertubFunc rv [m1, m2] e.nbSamples [i1, i2]
        [l1, l2]).getD 0 []).length = 5 ∧
      ((Lime.computeCoefs e.pred e.batchSize e.interpretableModel
        e.similarityKernel e.pertubFunc rv [m1, m2] e.nbSamples [i1, i2]
        [l1, l2]).getD 1 []).length = 12) ∧
    ∃ E, Lime.explain e [i1, i2] [l1, l2] = Except.ok E ∧
      E.length = 2 ∧
      (E.getD 0 []).length = W1 ∧ (∀ row ∈ E.getD 0 [], row.length = H1) ∧
      (E.getD 1 []).length = W2 ∧ (∀ row ∈ E.getD 1 [], row.length = H2) := by
  have hcs : ∀ rv : List ℝ,
      Lime.computeCoefs e.pred e.batchSize e.interpretableModel
        e.similarityKernel e.pertubFunc rv [m1, m2] e.nbSamples [i1, i2]
        [l1, l2] =
      [Lime.computeOne e.pred e.interpretableModel e.similarityKernel
        e.pertubFunc e.nbSamples rv i1 l1 m1 (numFeaturesOf m1),
       Lime.computeOne e.pred e.interpretableModel e.similarityKernel
        e.pertubFunc e.nbSamples rv i2 l2 m2 (numFeaturesOf m2)] := by
    intro rv
    rw [computeCoefs_eq_map]
    simp [numFeaturesBatch, numFeaturesOf]
  have hcl1 : ∀ rv : List ℝ,
      (Lime.computeOne e.pred e.interpretableModel e.similarityKernel
        e.pertubFunc e.nbSamples rv i1 l1 m1 (numFeaturesOf m1)).length = 5 := by
    intro rv
    rw [computeOne_length e.pred e.interpretableModel e.similarityKernel
      e.pertubFunc e.nbSamples rv i1 l1 m1 (numFeaturesOf m1) hns hpert hfit]
    exact hnf1
  have hcl2 : ∀ rv : List ℝ,
      (Lime.computeOne e.pred e.interpretableModel e.similarityKernel
        e.pertubFunc e.nbSamples rv i2 l2 m2 (numFeaturesOf m2)).length = 12 := by
    intro rv
    rw [computeOne_length e.pred e.interpretableModel e.similarityKernel
      e.pertubFunc e.nbSamples rv i2 l2 m2 (numFeaturesOf m2) hns hpert hfit]
    exact hnf2
  constructor
  · intro rv
    rw [hcs rv]
    exact ⟨rfl, by simpa using hcl1 rv, by simpa using hcl2 rv⟩
  · refine ⟨Lime.compute e.pred e.batchSize e.interpretableModel
      e.similarityKernel e.pertubFunc
      (if channelsOf [i1, i2] = 3 then List.replicate 3 (0.5 : ℝ)
        else List.replicate (channelsOf [i1, i2]) (0 : ℝ))
      [m1, m2] e.nbSamples [i1, i2] [l1, l2], ?_, ?_⟩
    · simp only [Lime.explain, href]
      rw [hseg]
    · have hE : Lime.compute e.pred e.batchSize e.interpretableModel
          e.similarityKernel e.pertubFunc
          (if channelsOf [i1, i2] = 3 then List.replicate 3 (0.5 : ℝ)
            else List.replicate (channelsOf [i1, i2]) (0 : ℝ))
          [m1, m2] e.nbSamples [i1, i2] [l1, l2] =
          [Lime.broadcastExplanation
            (Lime.computeOne e.pred e.interpretableModel e.similarityKernel
              e.pertubFunc e.nbSamples
              (if channelsOf [i1, i2] = 3 then List.replicate 3 (0.5 : ℝ)
                else List.replicate (channelsOf [i1, i2]) (0 : ℝ))
              i1 l1 m1 (numFeaturesOf m1)) m1,
           Lime.broadcastExplanation
            (Lime.computeOne e.pred e.interpretableModel e.similarityKernel
              e.pertubFunc e.nbSamples
              (if channelsOf [i1, i2] = 3 then List.replicate 3 (0.5 : ℝ)
                else List.replicate (channelsOf [i1, i2]) (0 : ℝ))
              i2 l2 m2 (numFeaturesOf m2)) m2] := by
        simp only [Lime.compute]
        rw [hcs]
        rfl
      rw [hE]
      have hb1 := broadcastExplanation_shape
        (Lime.computeOne e.pred e.interpretableModel e.similarityKernel
          e.pertubFunc e.nbSamples
          (if channelsOf [i1, i2] = 3 then List.replicate 3 (0.5 : ℝ)
            else List.replicate (channelsOf [i1, i2]) (0 : ℝ))
          i1 l1 m1 (numFeaturesOf m1)) m1 W1 H1 hm1W hm1H
      have hb2 := broadcastExplanation_shape
        (Lime.computeOne e.pred e.interpretableModel e.similarityKernel
          e.pertubFunc e.nbSamples
          (if channelsOf [i1, i2] = 3 then List.replicate 3 (0.5 : ℝ)
            else List.replicate (channelsOf [i1, i2]) (0 : ℝ))
          i2 l2 m2 (numFeaturesOf m2)) m2 W2 H2 hm2W hm2H
      exact ⟨rfl, by simpa using hb1.1, by simpa using hb1.2,
        by simpa using hb2.1, by simpa using hb2.2⟩

/-- A concrete explainer used to witness the two-input scenario: constant
model, all-ones sampler, zero kernel, a fitter returning one coefficient per
interpretable feature, and a segmenter producing groupings with 5 and 12
features. -/
noncomputable def c1Explainer : Lime.Explainer :=
  ⟨fun _ => [], 1, fun X _ _ => List.replicate (X.headD []).length 0,
   fun _ _ _ => 0, fun nf ns => List.replicate ns (List.replicate nf 1),
   fun _ => [[[0, 1, 2, 3, 4]], [[0, 1, 2, 3, 4, 5, 6, 7, 8, 9, 10, 11]]],
   none, 1⟩

/-- Witness for C1 at two one-pixel inputs with groupings of 5 and 12
features. -/
theorem explain_two_inputs_independent_shapes_witness :
    c1Explainer.mapToInterpretSpace [[[[1]]], [[[2]]]] =
      [[[0, 1, 2, 3, 4]], [[0, 1, 2, 3, 4, 5, 6, 7, 8, 9, 10, 11]]] ∧
    c1Explainer.refValues = none ∧
    numFeaturesOf [[0, 1, 2, 3, 4]] = 5 ∧
    numFeaturesOf [[0, 1, 2, 3, 4, 5, 6, 7, 8, 9, 10, 11]] = 12 ∧
    1 ≤ c1Explainer.nbSamples ∧
    ((∀ rv : List ℝ,
      (Lime.computeCoefs c1Explainer.pred c1Explainer.batchSize
        c1Explainer.interpretableModel c1Explainer.similarityKernel
        c1Explainer.pertubFunc rv
        [[[0, 1, 2, 3, 4]], [[0, 1, 2, 3, 4, 5, 6, 7, 8, 9, 10, 11]]]
        c1Explainer.nbSamples [[[[1]]], [[[2]]]] [[1], [1]]).length = 2 ∧
      ((Lime.computeCoefs c1Explainer.pred c1Explainer.batchSize
        c1Explainer.interpretableModel c1Explainer.similarityKernel
        c1Explainer.pertubFunc rv
        [[[0, 1, 2, 3, 4]], [[0, 1, 2, 3, 4, 5, 6, 7, 8, 9, 10, 11]]]
        c1Explainer.nbSamples [[[[1]]], [[[2]]]] [[1], [1]]).getD 0 []).length = 5 ∧
      ((Lime.computeCoefs c1Explainer.pred c1Explainer.batchSize
        c1Explainer.interpretableModel c1Explainer.similarityKernel
        c1Explainer.pertubFunc rv
        [[[0, 1, 2, 3, 4]], [[0, 1, 2, 3, 4, 5, 6, 7, 8, 9, 10, 11]]]
        c1Explainer.nbSamples [[[[1]]], [[[2]]]] [[1], [1]]).getD 1 []).length = 12) ∧
    ∃ E, Lime.explain c1Explainer [[[[1]]], [[[2]]]] [[1], [1]] = Except.ok E ∧
      E.length = 2 ∧
      (E.getD 0 []).length = 1 ∧ (∀ row ∈ E.getD 0 [], row.length = 5) ∧
      (E.getD 1 []).length = 1 ∧ (∀ row ∈ E.getD 1 [], row.length = 12)) := by
  refine ⟨rfl, rfl, by decide, by decide, by decide, ?_⟩
  apply explain_two_inputs_independent_shapes c1Explainer [[[1]]] [[[2]]]
    [1] [1] [[0, 1, 2, 3, 4]] [[0, 1, 2, 3, 4, 5, 6, 7, 8, 9, 10, 11]]
    1 5 1 12 rfl rfl (by decide) (by decide) (by decide)
  · intro a b
    show (List.replicate b (List.replicate a 1)).length = b ∧
      ∀ row ∈ List.replicate b (List.replicate a 1), row.length = a
    refine ⟨by simp, ?_⟩
    intro row h
    rw [List.eq_of_mem_replicate h]
    simp
  · intro X y w n hne hrows
    show (List.replicate (X.headD []).length (0 : ℝ)).length = n
    rw [List.length_replicate]
    cases X with
    | nil => exact absurd rfl hne
    | cons a t => simpa using hrows a (List.mem_cons_self a t)
  · rfl
  · intro row h
    simp only [List.mem_singleton] at h
    subst h
    rfl
  · rfl
  · intro row h
    simp only [List.mem_singleton] at h
    subst h
    rfl
